import Mathlib

/-!
Shallow embedding of `src/blur.c`: a text P3 PPM reader, a fixed 5x5
integer blur, and a P3 writer.

Modelling conventions:
* The input file is a `List Char`.
* `int` values coming out of the tokenizer are modelled as unbounded `Int`
  (an input literal exceeding the `int` range makes `fscanf` undefined in C,
  so no reachable, defined behaviour is misrepresented).
* Pixel values are stored as `Nat`: the loading loop rejects every negative
  value (`v < 0 || v > maxv`), so the buffers hold nonnegative ints only,
  and the blur accumulator (at most `81 * 65535`) never overflows
  `long long`; on these nonnegative values C integer division agrees with
  `Nat` division.
* The one place where 64-bit overflow is reachable, the size check
  `(long long)w * (long long)h * 3LL`, is modelled with an explicit
  two-complement wrap `wrap64`.
-/

set_option maxHeartbeats 2000000

/-- C `isspace` character set used by the skip loop and by `fscanf`. -/
def isSpaceC (c : Char) : Bool :=
  c = ' ' || c = '\t' || c = '\n' || c = '\x0b' || c = '\x0c' || c = '\r'

/-- The whitespace-and-comment skip loop at the top of `read_int`
(blur.c lines 27-43).  The `Bool` is `true` while inside a `#` comment
(the inner `while` of line 35).  `none` models returning 0 on EOF;
`some s` leaves the stream at the first non-skippable character. -/
def skipLoop : Bool → List Char → Option (List Char)
  | _, [] => none
  | true, c :: rest => if c = '\n' then skipLoop false rest else skipLoop true rest
  | false, c :: rest =>
    if isSpaceC c then skipLoop false rest
    else if c = '#' then skipLoop true rest
    else some (c :: rest)

/-- Longest digit prefix of a stream, as consumed by `fscanf "%d"`. -/
def takeDigits : List Char → List Char × List Char
  | [] => ([], [])
  | c :: rest =>
    if c.isDigit then
      let p := takeDigits rest
      (c :: p.1, p.2)
    else ([], c :: rest)

/-- Decimal value of a digit string. -/
def digitsVal (ds : List Char) : Nat :=
  ds.foldl (fun a c => a * 10 + (c.toNat - 48)) 0

/-- `fscanf "%d"` on a stream already positioned at a non-space character:
an optional sign followed by at least one digit; `none` is a matching or
input failure (`fscanf` result different from 1). -/
def scanInt (s : List Char) : Option (Int × List Char) :=
  match s with
  | [] => none
  | c :: rest =>
    if c = '-' then
      match takeDigits rest with
      | ([], _) => none
      | (ds, r) => some (-(digitsVal ds : Int), r)
    else if c = '+' then
      match takeDigits rest with
      | ([], _) => none
      | (ds, r) => some ((digitsVal ds : Int), r)
    else
      match takeDigits s with
      | ([], _) => none
      | (ds, r) => some ((digitsVal ds : Int), r)

/-- Result of `read_int`: EOF (returns 0), fatal "Bad integer in file",
or an integer plus the rest of the stream. -/
inductive ReadResult where
  | eof
  | malformed
  | ok (v : Int) (rest : List Char)
deriving DecidableEq

/-- `read_int` from blur.c lines 23-50. -/
def readInt (s : List Char) : ReadResult :=
  match skipLoop false s with
  | none => .eof
  | some s' =>
    match scanInt s' with
    | none => .malformed
    | some (v, rest) => .ok v rest

/-- Skip whitespace only (the first phase of `fscanf "%2s"`). -/
def skipWsOnly : List Char → List Char
  | [] => []
  | c :: rest => if isSpaceC c then skipWsOnly rest else c :: rest

/-- `fscanf "%2s"` (blur.c line 72): skip whitespace, then read at most two
non-space characters; `none` when the stream ends first. -/
def readMagic (s : List Char) : Option (List Char × List Char) :=
  match skipWsOnly s with
  | [] => none
  | c1 :: r1 =>
    match r1 with
    | [] => some ([c1], [])
    | c2 :: r2 => if isSpaceC c2 then some ([c1], c2 :: r2) else some ([c1, c2], r2)

/-- Error taxonomy of the spec, one constructor per `error_exit` site. -/
inductive PpmError where
  | unsupportedFormat
  | truncatedHeader
  | malformedInteger
  | invalidDimensions
  | invalidMaxValue
  | imageTooLarge
  | pixelOutOfRange
  | unexpectedEndOfData
deriving DecidableEq

/-- The in-memory image: header fields plus the flat channel buffer
(row-major, channel-interleaved). -/
structure Image where
  width : Nat
  height : Nat
  maxval : Nat
  channels : List Nat
deriving DecidableEq

deriving instance DecidableEq for Except

/-- Validity invariant of the data model: positive dimensions, max value in
1..65535, buffer of exact length, every value in range. -/
def Image.Valid (img : Image) : Prop :=
  0 < img.width ∧ 0 < img.height ∧ 1 ≤ img.maxval ∧ img.maxval ≤ 65535 ∧
  img.channels.length = img.width * img.height * 3 ∧
  ∀ v ∈ img.channels, v ≤ img.maxval

instance (img : Image) : Decidable img.Valid := by
  unfold Image.Valid; infer_instance

/-- Wrap to the range of a signed 64-bit `long long` (two-complement). -/
def wrap64 (n : Int) : Int := (n + 2 ^ 63) % 2 ^ 64 - 2 ^ 63

/-- The pixel-reading loop of `main` (blur.c lines 90-95): read exactly the
given count of integers, rejecting values outside `[0, maxv]`. -/
def readPixels (maxv : Int) : Nat → List Char → Except PpmError (List Nat × List Char)
  | 0, s => .ok ([], s)
  | n + 1, s =>
    match readInt s with
    | .eof => .error .unexpectedEndOfData
    | .malformed => .error .malformedInteger
    | .ok v rest =>
      if v < 0 ∨ v > maxv then .error .pixelOutOfRange
      else
        match readPixels maxv n rest with
        | .error e => .error e
        | .ok (vs, r) => .ok (v.toNat :: vs, r)

/-- The input phase of `main` (blur.c lines 70-96): magic, header ints,
validation, size check, pixel loading. -/
def parseImage (s : List Char) : Except PpmError Image :=
  match readMagic s with
  | none => .error .truncatedHeader
  | some (magic, s1) =>
    if magic ≠ ['P', '3'] then .error .unsupportedFormat
    else
      match readInt s1 with
      | .eof => .error .truncatedHeader
      | .malformed => .error .malformedInteger
      | .ok w s2 =>
        match readInt s2 with
        | .eof => .error .truncatedHeader
        | .malformed => .error .malformedInteger
        | .ok h s3 =>
          match readInt s3 with
          | .eof => .error .truncatedHeader
          | .malformed => .error .malformedInteger
          | .ok maxv s4 =>
            if w ≤ 0 ∨ h ≤ 0 then .error .invalidDimensions
            else if maxv ≤ 0 ∨ maxv > 65535 then .error .invalidMaxValue
            else
              let nvals := wrap64 (w * h * 3)
              if nvals ≤ 0 ∨ nvals > 200000000 then .error .imageTooLarge
              else
                match readPixels maxv nvals.toNat s4 with
                | .error e => .error e
                | .ok (vs, _) => .ok ⟨w.toNat, h.toNat, maxv.toNat, vs⟩

/-- The 5x5 kernel of blur.c lines 99-105, as the lookup `K[i][j]`
(out-of-table indices, never used by the code, give 0). -/
def K : Nat → Nat → Nat
  | 0, 0 => 1 | 0, 1 => 2 | 0, 2 => 3 | 0, 3 => 2 | 0, 4 => 1
  | 1, 0 => 2 | 1, 1 => 4 | 1, 2 => 6 | 1, 3 => 4 | 1, 4 => 2
  | 2, 0 => 3 | 2, 1 => 6 | 2, 2 => 9 | 2, 3 => 6 | 2, 4 => 3
  | 3, 0 => 2 | 3, 1 => 4 | 3, 2 => 6 | 3, 3 => 4 | 3, 4 => 2
  | 4, 0 => 1 | 4, 1 => 2 | 4, 2 => 3 | 4, 3 => 2 | 4, 4 => 1
  | _, _ => 0

def KSUM : Nat := 81

/-- `clamp` from blur.c lines 52-56. -/
def clamp (v lo hi : Int) : Int :=
  if v < lo then lo
  else if v > hi then hi
  else v

/-- Read of the flat input buffer (`pix[idx]`). -/
def pixAt (img : Image) (idx : Nat) : Nat := img.channels.getD idx 0

/-- The flat sample index `((long long)sy * w + sx) * 3 + ch` with the
clamped coordinates of blur.c lines 114-118. -/
def sampleIdx (img : Image) (x y : Nat) (kx ky : Int) (ch : Nat) : Nat :=
  ((clamp ((y : Int) + ky) 0 ((img.height : Int) - 1) * (img.width : Int)
    + clamp ((x : Int) + kx) 0 ((img.width : Int) - 1)) * 3 + (ch : Int)).toNat

/-- The sampled input value `pix[idx]` of blur.c line 119. -/
def samp (img : Image) (x y : Nat) (kx ky : Int) (ch : Nat) : Nat :=
  pixAt img (sampleIdx img x y kx ky ch)

/-- Loop range `-2..2` of the kernel offsets. -/
def kOffsets : List Int := [-2, -1, 0, 1, 2]

/-- The accumulator loop of blur.c lines 112-121. -/
def acc (img : Image) (x y ch : Nat) : Nat :=
  kOffsets.foldl (fun a ky =>
    kOffsets.foldl (fun a2 kx =>
      a2 + K (ky + 2).toNat (kx + 2).toNat * samp img x y kx ky ch) a) 0

/-- Normalize with rounding and clamp (blur.c lines 124-125). -/
def blurVal (img : Image) (x y ch : Nat) : Nat :=
  (clamp (((acc img x y ch + KSUM / 2) / KSUM : Nat) : Int) 0 (img.maxval : Int)).toNat

/-- The blur loop of blur.c lines 109-130.  The loop writes
`outpix[(y*w+x)*3+ch]` for every `(y, x, ch)` in lexicographic order, which
fills the flat buffer exactly in stream order; the nested bind reproduces
that order. -/
def blur (img : Image) : Image :=
  { img with channels :=
      (List.range img.height).flatMap fun y =>
        (List.range img.width).flatMap fun x =>
          (List.range 3).map fun ch => blurVal img x y ch }

/-- Decimal digits of `n`, as printed by `fprintf "%d"` for a nonnegative
value (fuel recursion on the number of digits). -/
def natReprAux : Nat → Nat → List Char
  | 0, _ => []
  | fuel + 1, n =>
    if n < 10 then [Char.ofNat (48 + n)]
    else natReprAux fuel (n / 10) ++ [Char.ofNat (48 + n % 10)]

def natRepr (n : Nat) : List Char := natReprAux (n + 1) n

/-- `fprintf "%d"` for a possibly negative value. -/
def intRepr (t : Int) : List Char :=
  if t < 0 then '-' :: natRepr t.natAbs else natRepr t.toNat

/-- The token output loop of blur.c lines 139-146; `count` is the number of
tokens already written.  Every token is followed by one separator: a newline
when the running count is a multiple of 15, a space otherwise. -/
def serializeVals : List Nat → Nat → List Char
  | [], _ => []
  | v :: vs, count =>
    natRepr v ++ (if (count + 1) % 15 = 0 then ['\n'] else [' '])
      ++ serializeVals vs (count + 1)

/-- The header write `fprintf(out, "P3\n%d %d\n%d\n", w, h, maxv)`
(blur.c line 136). -/
def serializeHeader (img : Image) : List Char :=
  ['P', '3', '\n'] ++ natRepr img.width ++ [' '] ++ natRepr img.height ++ ['\n']
    ++ natRepr img.maxval ++ ['\n']

/-- The output phase of `main` (blur.c lines 136-147). -/
def serialize (img : Image) : List Char :=
  serializeHeader img ++ serializeVals img.channels 0
    ++ (if img.channels.length % 15 ≠ 0 then ['\n'] else [])

/-- Whole pipeline: parse, blur, serialize. -/
def runProgram (s : List Char) : Except PpmError (Image × List Char) :=
  match parseImage s with
  | .error e => .error e
  | .ok img => .ok (blur img, serialize (blur img))

example : parseImage ("P3\n2 1\n255\n1 2 3 4 5 6\n".toList) =
    .ok ⟨2, 1, 255, [1, 2, 3, 4, 5, 6]⟩ := by decide

example : parseImage ("P3\n# hi\n2 1\n255\n1 2 3 4 5 6".toList) =
    .ok ⟨2, 1, 255, [1, 2, 3, 4, 5, 6]⟩ := by decide

example : blur ⟨1, 1, 255, [5, 6, 7]⟩ = ⟨1, 1, 255, [5, 6, 7]⟩ := by decide

example : serialize ⟨1, 1, 1, [0, 0, 0]⟩ = "P3\n1 1\n1\n0 0 0 \n".toList := by decide

/-- True when the stream does not begin with a decimal digit, so a digit
scan stopping here is a genuine token boundary. -/
def noDigitStart : List Char → Bool
  | [] => true
  | c :: _ => !c.isDigit

/-- One item of inter-token filler in a PPM text stream: a whitespace
character or a comment running from `#` through its terminating newline. -/
inductive SepItem where
  | wsChar (c : Char)
  | comment (body : List Char)
deriving DecidableEq

/-- Bytes of one filler item. -/
def SepItem.render : SepItem → List Char
  | .wsChar c => [c]
  | .comment body => '#' :: body ++ ['\n']

/-- Well-formedness: the character is whitespace, the comment body has no
embedded newline. -/
def SepItem.good : SepItem → Bool
  | .wsChar c => isSpaceC c
  | .comment body => body.all (fun c => c ≠ '\n')

/-- Whether the item survives comment stripping. -/
def SepItem.isWs : SepItem → Bool
  | .wsChar _ => true
  | .comment _ => false

/-- Bytes of a filler run. -/
def renderSep (sep : List SepItem) : List Char := (sep.map SepItem.render).flatten

/-- Removing the comments from a filler run. -/
def stripSep (sep : List SepItem) : List SepItem := sep.filter SepItem.isWs

/-- A token stream: filler before each integer token, then a trailing
remainder. -/
def renderStream : List (List SepItem × Int) → List Char → List Char
  | [], tail => tail
  | (sep, t) :: rest, tail => renderSep sep ++ intRepr t ++ renderStream rest tail

/-- How a maximal run of `read_int` calls can end. -/
inductive ReadTerm where
  | complete (rest : List Char)
  | eofEnd
  | malformedEnd
deriving DecidableEq

/-- Reference reader for C8: the first `n` integers `read_int` yields from
the stream, with no range checking, and how the run ended. -/
def tokensUpTo : Nat → List Char → List Int × ReadTerm
  | 0, s => ([], .complete s)
  | n + 1, s =>
    match readInt s with
    | .eof => ([], .eofEnd)
    | .malformed => ([], .malformedEnd)
    | .ok v rest =>
      let p := tokensUpTo n rest
      (v :: p.1, p.2)

/-- C10 refinement: normalization without the final clamp. -/
def blurValNoClamp (img : Image) (x y ch : Nat) : Nat :=
  (acc img x y ch + KSUM / 2) / KSUM

/-- The blur loop with the final clamp removed. -/
def blurNoClamp (img : Image) : Image :=
  { img with channels :=
      (List.range img.height).flatMap fun y =>
        (List.range img.width).flatMap fun x =>
          (List.range 3).map fun ch => blurValNoClamp img x y ch }

/-- C1 reference sample `input[clamp(y+ky,0,height-1), clamp(x+kx,0,width-1), c]`,
with the flat index mapping `(row*width+col)*3 + c` of the data model. -/
def refSamp (img : Image) (x y : Nat) (kx ky : Int) (c : Nat) : Nat :=
  pixAt img (((clamp ((y : Int) + ky) 0 ((img.height : Int) - 1)).toNat * img.width
    + (clamp ((x : Int) + kx) 0 ((img.width : Int) - 1)).toNat) * 3 + c)

/-- C1 reference value, written from the claim: sum over kernel offsets
`(kx, ky)` in `[-2,2] x [-2,2]` of `weight * input[clamp(y+ky), clamp(x+kx), c]`,
normalized as `(accumulator + divisor/2) / divisor` with `divisor = 81`,
clamped to `[0, max_value]`. -/
def refVal (img : Image) (x y c : Nat) : Nat :=
  min (((∑ ky ∈ Finset.Icc (-2 : Int) 2, ∑ kx ∈ Finset.Icc (-2 : Int) 2,
      K (ky + 2).toNat (kx + 2).toNat * refSamp img x y kx ky c) + 81 / 2) / 81)
    img.maxval

/-- C5 serialization exactly as the claim words it: header, then tokens
separated by a single space, a newline replacing the separator after every
15th token, and a trailing newline when the final count is not a multiple
of 15 - no other characters (so no separator after the last token). -/
def serializeValsSep : List Nat → Nat → List Char
  | [], _ => []
  | [v], _ => natRepr v
  | v :: vs, count =>
    natRepr v ++ (if (count + 1) % 15 = 0 then ['\n'] else [' '])
      ++ serializeValsSep vs (count + 1)

def serializeSpecC5 (img : Image) : List Char :=
  serializeHeader img ++ serializeValsSep img.channels 0
    ++ (if img.channels.length % 15 ≠ 0 then ['\n'] else [])

/-- C5 as amended: every token, the last included, is followed by one
separator (newline for each 15th token, space otherwise), plus the same
trailing newline rule. -/
def serializeAmendedC5 (img : Image) : List Char :=
  serializeHeader img
    ++ (List.zipWith (fun k v => natRepr v ++ (if k % 15 = 0 then ['\n'] else [' ']))
        (List.range' 1 img.channels.length) img.channels).flatten
    ++ (if img.channels.length % 15 ≠ 0 then ['\n'] else [])

/-! ### Basic facts about the tokenizer -/

lemma isSpaceC_not_digit {c : Char} (h : isSpaceC c = true) : c.isDigit = false := by
  simp only [isSpaceC, Bool.or_eq_true, decide_eq_true_eq] at h
  rcases h with ((((h | h) | h) | h) | h) | h <;> subst h <;> decide

lemma digit_not_space {c : Char} (h : c.isDigit = true) : isSpaceC c = false := by
  cases hs : isSpaceC c
  · rfl
  · rw [isSpaceC_not_digit hs] at h; cases h

lemma digit_ne_minus {c : Char} (h : c.isDigit = true) : c ≠ '-' := by
  intro hc; subst hc; cases h

lemma digit_ne_plus {c : Char} (h : c.isDigit = true) : c ≠ '+' := by
  intro hc; subst hc; cases h

lemma digit_ne_hash {c : Char} (h : c.isDigit = true) : c ≠ '#' := by
  intro hc; subst hc; cases h

lemma takeDigits_eq_append : ∀ s : List Char, (takeDigits s).1 ++ (takeDigits s).2 = s := by
  intro s
  induction s with
  | nil => rfl
  | cons c rest ih =>
    by_cases hc : c.isDigit
    · simp [takeDigits, hc, ih]
    · simp [takeDigits, hc]

lemma takeDigits_of_digits :
    ∀ (ds rest : List Char), (∀ c ∈ ds, c.isDigit) → noDigitStart rest = true →
      takeDigits (ds ++ rest) = (ds, rest) := by
  intro ds
  induction ds with
  | nil =>
    intro rest _ hrest
    cases rest with
    | nil => rfl
    | cons c tl =>
      simp only [noDigitStart, Bool.not_eq_true'] at hrest
      simp [takeDigits, hrest]
  | cons c tl ih =>
    intro rest hds hrest
    have hc : c.isDigit = true := hds c (by simp)
    have ihr := ih rest (fun d hd => hds d (by simp [hd])) hrest
    simp [takeDigits, hc, ihr]

lemma takeDigits_fst_digits : ∀ s : List Char, ∀ c ∈ (takeDigits s).1, c.isDigit := by
  intro s
  induction s with
  | nil => intro c hc; cases hc
  | cons c rest ih =>
    intro d hd
    by_cases hc : c.isDigit
    · simp only [takeDigits, hc, if_true] at hd
      rcases List.mem_cons.1 hd with h | h
      · subst h; exact hc
      · exact ih d h
    · simp [takeDigits, hc] at hd

/-! ### Digits of a nonnegative decimal literal -/

lemma digit_char_facts : ∀ m : Nat, m < 10 →
    (Char.ofNat (48 + m)).isDigit = true ∧ (Char.ofNat (48 + m)).toNat = 48 + m := by
  decide

lemma digitsVal_append_one (ds : List Char) (c : Char) :
    digitsVal (ds ++ [c]) = digitsVal ds * 10 + (c.toNat - 48) := by
  simp [digitsVal, List.foldl_append]

lemma natReprAux_spec : ∀ (fuel n : Nat), n < fuel →
    (∀ c ∈ natReprAux fuel n, c.isDigit) ∧ natReprAux fuel n ≠ [] ∧
      digitsVal (natReprAux fuel n) = n := by
  intro fuel
  induction fuel with
  | zero => intro n hn; omega
  | succ fuel ih =>
    intro n hn
    by_cases h10 : n < 10
    · simp only [natReprAux, if_pos h10]
      obtain ⟨hd, ht⟩ := digit_char_facts n h10
      refine ⟨?_, by simp, ?_⟩
      · intro c hc; simp only [List.mem_singleton] at hc; subst hc; exact hd
      · simp [digitsVal, ht]
    · have hdiv : n / 10 < fuel := by
        have : n / 10 < n := Nat.div_lt_self (by omega) (by omega)
        omega
      obtain ⟨ihd, ihne, ihval⟩ := ih (n / 10) hdiv
      have hm : n % 10 < 10 := Nat.mod_lt _ (by omega)
      obtain ⟨hd, ht⟩ := digit_char_facts (n % 10) hm
      simp only [natReprAux, if_neg h10]
      refine ⟨?_, by simp, ?_⟩
      · intro c hc
        rcases List.mem_append.1 hc with h | h
        · exact ihd c h
        · simp only [List.mem_singleton] at h; subst h; exact hd
      · rw [digitsVal_append_one, ihval, ht]
        omega

lemma natRepr_digits (n : Nat) : ∀ c ∈ natRepr n, c.isDigit :=
  (natReprAux_spec (n + 1) n (by omega)).1

lemma natRepr_ne_nil (n : Nat) : natRepr n ≠ [] :=
  (natReprAux_spec (n + 1) n (by omega)).2.1

lemma digitsVal_natRepr (n : Nat) : digitsVal (natRepr n) = n :=
  (natReprAux_spec (n + 1) n (by omega)).2.2

/-! ### Length bounds, and termination of repeated reads -/

lemma skipLoop_length : ∀ (s : List Char) (b : Bool) (s' : List Char),
    skipLoop b s = some s' → s'.length ≤ s.length := by
  intro s
  induction s with
  | nil => intro b s' h; cases b <;> simp [skipLoop] at h
  | cons c rest ih =>
    intro b s' h
    cases b with
    | true =>
      rw [skipLoop] at h
      split at h
      · exact le_trans (ih false s' h) (by simp)
      · exact le_trans (ih true s' h) (by simp)
    | false =>
      rw [skipLoop] at h
      split at h
      · exact le_trans (ih false s' h) (by simp)
      · split at h
        · exact le_trans (ih true s' h) (by simp)
        · cases h; exact le_refl _

lemma takeDigits_length_le (s : List Char) : (takeDigits s).2.length ≤ s.length := by
  conv_rhs => rw [← takeDigits_eq_append s]
  simp

lemma takeDigits_snd_lt {s ds r : List Char} (h : takeDigits s = (ds, r))
    (hne : ds ≠ []) : r.length < s.length := by
  have he := takeDigits_eq_append s
  rw [h] at he
  have hl := congrArg List.length he
  simp only [List.length_append] at hl
  cases ds with
  | nil => exact absurd rfl hne
  | cons d tl => simp only [List.length_cons] at hl; omega

lemma scanInt_length {s : List Char} {v : Int} {rest : List Char}
    (h : scanInt s = some (v, rest)) : rest.length < s.length := by
  cases s with
  | nil => simp [scanInt] at h
  | cons c tl =>
    rw [scanInt] at h
    split at h
    · rcases hd : takeDigits tl with ⟨ds, r⟩
      rw [hd] at h
      cases ds with
      | nil => simp at h
      | cons d ds' =>
        simp only [Option.some.injEq, Prod.mk.injEq] at h
        obtain ⟨-, hr⟩ := h
        subst hr
        have := takeDigits_snd_lt hd (by simp)
        simp only [List.length_cons]
        omega
    · split at h
      · rcases hd : takeDigits tl with ⟨ds, r⟩
        rw [hd] at h
        cases ds with
        | nil => simp at h
        | cons d ds' =>
          simp only [Option.some.injEq, Prod.mk.injEq] at h
          obtain ⟨-, hr⟩ := h
          subst hr
          have := takeDigits_snd_lt hd (by simp)
          simp only [List.length_cons]
          omega
      · rcases hd : takeDigits (c :: tl) with ⟨ds, r⟩
        rw [hd] at h
        cases ds with
        | nil => simp at h
        | cons d ds' =>
          simp only [Option.some.injEq, Prod.mk.injEq] at h
          obtain ⟨-, hr⟩ := h
          subst hr
          exact takeDigits_snd_lt hd (by simp)

lemma readInt_ok_length {s : List Char} {v : Int} {rest : List Char}
    (h : readInt s = .ok v rest) : rest.length < s.length := by
  unfold readInt at h
  rcases hs : skipLoop false s with _ | s'
  · rw [hs] at h; exact ReadResult.noConfusion h
  · rw [hs] at h
    dsimp only at h
    rcases hv : scanInt s' with _ | ⟨v', rest'⟩
    · rw [hv] at h; exact ReadResult.noConfusion h
    · rw [hv] at h
      dsimp only at h
      cases h
      exact lt_of_lt_of_le (scanInt_length hv) (skipLoop_length s false s' hs)

/-- All integers `read_int` yields from a stream, and whether the run ended
at end of stream (`true`) or on a malformed token (`false`). -/
def parseOutcome (s : List Char) : List Int × Bool :=
  match h : readInt s with
  | .eof => ([], true)
  | .malformed => ([], false)
  | .ok v rest =>
    let p := parseOutcome rest
    (v :: p.1, p.2)
termination_by s.length
decreasing_by exact readInt_ok_length h

/-! ### Reading a token after skippable filler -/

lemma skipLoop_comment_body : ∀ (body : List Char), (∀ c ∈ body, c ≠ '\n') →
    ∀ r : List Char, skipLoop true (body ++ '\n' :: r) = skipLoop false r := by
  intro body
  induction body with
  | nil => intro _ r; rw [List.nil_append, skipLoop, if_pos rfl]
  | cons c tl ih =>
    intro hb r
    have hc : c ≠ '\n' := hb c (by simp)
    rw [List.cons_append, skipLoop, if_neg hc]
    exact ih (fun d hd => hb d (by simp [hd])) r

lemma skipLoop_false_ws {c : Char} (hc : isSpaceC c = true) (r : List Char) :
    skipLoop false (c :: r) = skipLoop false r := by
  rw [skipLoop]; simp [hc]

lemma skipLoop_false_hash (r : List Char) : skipLoop false ('#' :: r) = skipLoop true r := by
  rw [skipLoop]; simp [isSpaceC]

lemma skipLoop_false_nonskip {c : Char} (h1 : isSpaceC c = false) (h2 : c ≠ '#')
    (r : List Char) : skipLoop false (c :: r) = some (c :: r) := by
  rw [skipLoop]; simp [h1, h2]

lemma renderSep_cons (i : SepItem) (sep : List SepItem) :
    renderSep (i :: sep) = i.render ++ renderSep sep := by
  simp [renderSep]

lemma skipLoop_renderSep : ∀ (sep : List SepItem), (∀ i ∈ sep, i.good = true) →
    ∀ r : List Char, skipLoop false (renderSep sep ++ r) = skipLoop false r := by
  intro sep
  induction sep with
  | nil => intro _ r; rw [renderSep]; simp
  | cons i rest ih =>
    intro hg r
    have hi : i.good = true := hg i (by simp)
    have ihr := ih (fun j hj => hg j (by simp [hj])) r
    rw [renderSep_cons, List.append_assoc]
    cases i with
    | wsChar c =>
      simp only [SepItem.good] at hi
      rw [SepItem.render, List.cons_append, List.nil_append,
        skipLoop_false_ws hi, ihr]
    | comment body =>
      simp only [SepItem.good, List.all_eq_true, decide_eq_true_eq] at hi
      rw [SepItem.render]
      have hshape : '#' :: body ++ ['\n'] ++ (renderSep rest ++ r)
          = '#' :: (body ++ '\n' :: (renderSep rest ++ r)) := by simp
      rw [hshape, skipLoop_false_hash, skipLoop_comment_body body hi, ihr]

lemma scanInt_digits (ds rest : List Char) (hds : ∀ c ∈ ds, c.isDigit) (hne : ds ≠ [])
    (hrest : noDigitStart rest = true) :
    scanInt (ds ++ rest) = some ((digitsVal ds : Int), rest) := by
  cases ds with
  | nil => exact absurd rfl hne
  | cons c cs =>
    have hcd : c.isDigit = true := hds c (by simp)
    have htd : takeDigits (c :: cs ++ rest) = (c :: cs, rest) :=
      takeDigits_of_digits _ _ hds hrest
    rw [List.cons_append, scanInt, if_neg (digit_ne_minus hcd), if_neg (digit_ne_plus hcd),
      ← List.cons_append, htd]

lemma scanInt_neg (ds rest : List Char) (hds : ∀ c ∈ ds, c.isDigit) (hne : ds ≠ [])
    (hrest : noDigitStart rest = true) :
    scanInt ('-' :: ds ++ rest) = some (-(digitsVal ds : Int), rest) := by
  cases ds with
  | nil => exact absurd rfl hne
  | cons c cs =>
    have htd : takeDigits (c :: cs ++ rest) = (c :: cs, rest) :=
      takeDigits_of_digits _ _ hds hrest
    rw [List.cons_append, List.cons_append, scanInt, if_pos rfl, ← List.cons_append, htd]

lemma scanInt_intRepr (t : Int) (rest : List Char) (hrest : noDigitStart rest = true) :
    scanInt (intRepr t ++ rest) = some (t, rest) := by
  rw [intRepr]
  by_cases ht : t < 0
  · rw [if_pos ht, List.cons_append, ← List.cons_append,
      scanInt_neg _ _ (natRepr_digits _) (natRepr_ne_nil _) hrest, digitsVal_natRepr]
    have : -(t.natAbs : Int) = t := by omega
    rw [this]
  · rw [if_neg ht, scanInt_digits _ _ (natRepr_digits _) (natRepr_ne_nil _) hrest,
      digitsVal_natRepr]
    have : (t.toNat : Int) = t := by omega
    rw [this]

lemma skipLoop_intRepr (t : Int) (rest : List Char) :
    skipLoop false (intRepr t ++ rest) = some (intRepr t ++ rest) := by
  rw [intRepr]
  by_cases ht : t < 0
  · rw [if_pos ht, List.cons_append]
    rw [skipLoop_false_nonskip (by decide) (by decide)]
  · rw [if_neg ht]
    obtain ⟨c, cs, hc⟩ := List.exists_cons_of_ne_nil (natRepr_ne_nil t.toNat)
    have hcd : c.isDigit := natRepr_digits t.toNat c (by rw [hc]; simp)
    rw [hc, List.cons_append,
      skipLoop_false_nonskip (digit_not_space hcd) (digit_ne_hash hcd)]

/-- Reading one integer after any run of whitespace and comments: the filler
is transparent to `read_int`. -/
lemma readInt_sep_token (sep : List SepItem) (hg : ∀ i ∈ sep, i.good = true)
    (t : Int) (rest : List Char) (hrest : noDigitStart rest = true) :
    readInt (renderSep sep ++ (intRepr t ++ rest)) = .ok t rest := by
  unfold readInt
  rw [skipLoop_renderSep sep hg]
  simp only [skipLoop_intRepr, scanInt_intRepr t rest hrest]

/-! ### Unfolding lemmas for parseOutcome -/

lemma parseOutcome_eof {s : List Char} (h : readInt s = .eof) :
    parseOutcome s = ([], true) := by
  rw [parseOutcome]
  split <;> rename_i heq
  · rfl
  · rw [h] at heq; exact ReadResult.noConfusion heq
  · rw [h] at heq; exact ReadResult.noConfusion heq

lemma parseOutcome_malformed {s : List Char} (h : readInt s = .malformed) :
    parseOutcome s = ([], false) := by
  rw [parseOutcome]
  split <;> rename_i heq
  · rw [h] at heq; exact ReadResult.noConfusion heq
  · rfl
  · rw [h] at heq; exact ReadResult.noConfusion heq

lemma parseOutcome_ok {s : List Char} {v : Int} {rest : List Char}
    (h : readInt s = .ok v rest) :
    parseOutcome s = (v :: (parseOutcome rest).1, (parseOutcome rest).2) := by
  rw [parseOutcome]
  split <;> rename_i heq
  · rw [h] at heq; exact ReadResult.noConfusion heq
  · rw [h] at heq; exact ReadResult.noConfusion heq
  · rename_i v' rest'
    rw [h] at heq
    cases heq
    rfl

/-! ### Filler runs and comment stripping -/

lemma stripSep_good {sep : List SepItem} (hg : ∀ i ∈ sep, i.good = true) :
    ∀ i ∈ stripSep sep, i.good = true :=
  fun i hi => hg i (List.mem_of_mem_filter hi)

lemma stripSep_ne_nil {sep : List SepItem} (hws : sep.any SepItem.isWs = true) :
    stripSep sep ≠ [] := by
  rcases List.any_eq_true.1 hws with ⟨i, hi, hiws⟩
  exact List.ne_nil_of_mem (List.mem_filter.2 ⟨hi, hiws⟩)

lemma noDigitStart_renderSep_cons (i : SepItem) (sep : List SepItem) (hi : i.good = true)
    (r : List Char) : noDigitStart (renderSep (i :: sep) ++ r) = true := by
  rw [renderSep_cons, List.append_assoc]
  cases i with
  | wsChar c =>
    simp only [SepItem.good] at hi
    rw [SepItem.render, List.cons_append]
    simp [noDigitStart, isSpaceC_not_digit hi]
  | comment body =>
    rw [SepItem.render, List.cons_append]
    simp [noDigitStart]

lemma noDigitStart_renderSep_of_ne {sep : List SepItem} (hg : ∀ i ∈ sep, i.good = true)
    (hne : sep ≠ []) (r : List Char) : noDigitStart (renderSep sep ++ r) = true := by
  cases sep with
  | nil => exact absurd rfl hne
  | cons i s => exact noDigitStart_renderSep_cons i s (hg i (by simp)) r

/-- C7: a token stream with whitespace-and-comment filler before each token
parses to exactly the same outcome (same integers in the same order, same
end condition on the same trailing data) as the stream with every comment
stripped.  Every filler run after the first must keep at least one
whitespace character, which is what "inserting comments between two tokens
of a stream" produces. -/
theorem C7_comment_insertion (items : List (List SepItem × Int)) (tail : List Char)
    (hgood : ∀ p ∈ items, ∀ i ∈ p.1, i.good = true)
    (hws : ∀ p ∈ items.tail, p.1.any SepItem.isWs = true)
    (htail : noDigitStart tail = true) :
    parseOutcome (renderStream items tail)
      = parseOutcome (renderStream (items.map fun p => (stripSep p.1, p.2)) tail) := by
  induction items with
  | nil => rfl
  | cons p rest ih =>
    obtain ⟨s, t⟩ := p
    have hgs : ∀ i ∈ s, i.good = true := hgood (s, t) (by simp)
    have hgrest : ∀ q ∈ rest, ∀ i ∈ q.1, i.good = true :=
      fun q hq => hgood q (by simp [hq])
    have hwsrest : ∀ q ∈ rest.tail, q.1.any SepItem.isWs = true :=
      fun q hq => hws q (List.mem_of_mem_tail hq)
    have hnext : noDigitStart (renderStream rest tail) = true := by
      cases rest with
      | nil => simpa [renderStream] using htail
      | cons q rest' =>
        obtain ⟨s', t'⟩ := q
        have hq1 : (s', t').1.any SepItem.isWs = true := hws (s', t') (by simp)
        have hne : s' ≠ [] := by
          rcases List.any_eq_true.1 hq1 with ⟨i, hi, -⟩
          exact List.ne_nil_of_mem hi
        rw [renderStream, List.append_assoc]
        exact noDigitStart_renderSep_of_ne (hgrest (s', t') (by simp)) hne _
    have hnext' :
        noDigitStart (renderStream (rest.map fun p => (stripSep p.1, p.2)) tail) = true := by
      cases rest with
      | nil => simpa [renderStream] using htail
      | cons q rest' =>
        obtain ⟨s', t'⟩ := q
        have hq1 : (s', t').1.any SepItem.isWs = true := hws (s', t') (by simp)
        rw [List.map_cons, renderStream, List.append_assoc]
        exact noDigitStart_renderSep_of_ne (stripSep_good (hgrest (s', t') (by simp)))
          (stripSep_ne_nil hq1) _
    have h1 := readInt_sep_token s hgs t (renderStream rest tail) hnext
    have h2 := readInt_sep_token (stripSep s) (stripSep_good hgs) t
      (renderStream (rest.map fun p => (stripSep p.1, p.2)) tail) hnext'
    rw [renderStream, List.map_cons, renderStream, List.append_assoc, List.append_assoc,
      parseOutcome_ok h1, parseOutcome_ok h2, ih hgrest hwsrest]

lemma tokensUpTo_step {n : Nat} {s : List Char} {v : Int} {rest : List Char}
    (hr : readInt s = .ok v rest) :
    tokensUpTo (n + 1) s = (v :: (tokensUpTo n rest).1, (tokensUpTo n rest).2) := by
  simp [tokensUpTo, hr]

/-- C8: the pixel loader reads exactly the requested count of integers.  On
success the stored buffer is precisely those integers in stream order (all
within `[0, maxv]`); a value outside `[0, maxv]`, every earlier one in
range, gives `PixelOutOfRange`; the stream ending first (every delivered
value in range) gives `UnexpectedEndOfData`. -/
theorem C8_pixel_loader (mv : Int) (n : Nat) (s : List Char) :
    (∀ vs rest, readPixels mv n s = .ok (vs, rest) →
      vs.length = n ∧ tokensUpTo n s = (vs.map Int.ofNat, .complete rest) ∧
        ∀ v ∈ vs, (v : Int) ≤ mv) ∧
    (∀ toks, tokensUpTo n s = (toks, .eofEnd) → (∀ u ∈ toks, 0 ≤ u ∧ u ≤ mv) →
      readPixels mv n s = .error .unexpectedEndOfData) ∧
    (∀ a u b term, tokensUpTo n s = (a ++ u :: b, term) → (∀ x ∈ a, 0 ≤ x ∧ x ≤ mv) →
      (u < 0 ∨ u > mv) → readPixels mv n s = .error .pixelOutOfRange) := by
  induction n generalizing s with
  | zero =>
    refine ⟨?_, ?_, ?_⟩
    · intro vs rest h
      simp only [readPixels, Except.ok.injEq, Prod.mk.injEq] at h
      obtain ⟨hvs, hrest⟩ := h
      subst hvs; subst hrest
      exact ⟨rfl, rfl, by simp⟩
    · intro toks h
      simp only [tokensUpTo, Prod.mk.injEq] at h
      exact absurd h.2 (by simp)
    · intro a u b term h _ _
      simp only [tokensUpTo, Prod.mk.injEq] at h
      exact absurd h.1.symm (by simp)
  | succ n ih =>
    rcases hr : readInt s with _ | _ | ⟨v, rest⟩
    · refine ⟨?_, ?_, ?_⟩
      · intro vs rest h
        simp [readPixels, hr] at h
      · intro toks h _
        simp [readPixels, hr]
      · intro a u b term h _ _
        simp only [tokensUpTo, hr, Prod.mk.injEq] at h
        exact absurd h.1.symm (by simp)
    · refine ⟨?_, ?_, ?_⟩
      · intro vs rest h
        simp [readPixels, hr] at h
      · intro toks h _
        simp only [tokensUpTo, hr, Prod.mk.injEq] at h
        exact absurd h.2 (by simp)
      · intro a u b term h _ _
        simp only [tokensUpTo, hr, Prod.mk.injEq] at h
        exact absurd h.1.symm (by simp)
    · obtain ⟨ih1, ih2, ih3⟩ := ih rest
      by_cases hv : v < 0 ∨ v > mv
      · have hrp : readPixels mv (n + 1) s = .error .pixelOutOfRange := by
          simp [readPixels, hr, hv]
        refine ⟨?_, ?_, ?_⟩
        · intro vs rest' h
          rw [hrp] at h
          exact Except.noConfusion h
        · intro toks h hrange
          rw [tokensUpTo_step hr] at h
          simp only [Prod.mk.injEq] at h
          have hvmem : v ∈ toks := by
            rw [← h.1]; exact List.mem_cons_self _ _
          obtain ⟨ha, hb⟩ := hrange v hvmem
          rcases hv with hv | hv <;> omega
        · intro a u b term h ha hu
          exact hrp
      · have hv' : 0 ≤ v ∧ v ≤ mv := by
          push_neg at hv
          exact ⟨by omega, hv.2⟩
        have hrp : readPixels mv (n + 1) s
            = match readPixels mv n rest with
              | .error e => .error e
              | .ok (vs, r) => .ok (v.toNat :: vs, r) := by
          simp [readPixels, hr, hv]
        refine ⟨?_, ?_, ?_⟩
        · intro vs rest' h
          rw [hrp] at h
          cases hrec : readPixels mv n rest with
          | error e => rw [hrec] at h; exact Except.noConfusion h
          | ok p =>
            obtain ⟨vs', r'⟩ := p
            rw [hrec] at h
            simp only [Except.ok.injEq, Prod.mk.injEq] at h
            obtain ⟨hvs, hrest⟩ := h
            subst hvs; subst hrest
            obtain ⟨hlen, htk, hbnd⟩ := ih1 vs' r' hrec
            refine ⟨by simp [hlen], ?_, ?_⟩
            · rw [tokensUpTo_step hr, htk]
              simp [Int.toNat_of_nonneg hv'.1]
            · intro x hx
              rcases List.mem_cons.1 hx with hx | hx
              · subst hx
                rw [Int.toNat_of_nonneg hv'.1]
                exact hv'.2
              · exact hbnd x hx
        · intro toks h hrange
          rw [tokensUpTo_step hr] at h
          simp only [Prod.mk.injEq] at h
          obtain ⟨h1, h2⟩ := h
          have htk : tokensUpTo n rest = ((tokensUpTo n rest).1, ReadTerm.eofEnd) := by
            rw [← h2]
          have hrange' : ∀ u ∈ (tokensUpTo n rest).1, 0 ≤ u ∧ u ≤ mv := by
            intro u hu
            exact hrange u (by rw [← h1]; exact List.mem_cons_of_mem _ hu)
          have hrec := ih2 _ htk hrange'
          rw [hrp, hrec]
        · intro a u b term h ha hu
          rw [tokensUpTo_step hr] at h
          simp only [Prod.mk.injEq] at h
          obtain ⟨h1, h2⟩ := h
          cases a with
          | nil =>
            simp only [List.nil_append, List.cons.injEq] at h1
            obtain ⟨hvu, -⟩ := h1
            subst hvu
            obtain ⟨hva, hvb⟩ := hv'
            rcases hu with hu | hu <;> omega
          | cons a0 a' =>
            simp only [List.cons_append, List.cons.injEq] at h1
            obtain ⟨-, hts⟩ := h1
            have htk : tokensUpTo n rest = (a' ++ u :: b, (tokensUpTo n rest).2) := by
              rw [← hts]
            have ha' : ∀ x ∈ a', 0 ≤ x ∧ x ≤ mv :=
              fun x hx => ha x (List.mem_cons_of_mem _ hx)
            have hrec := ih3 a' u b _ htk ha' hu
            rw [hrp, hrec]

/-! ### Indexing the nested output buffer of the blur loop -/

lemma length_flatMap_const {α : Type} (f : Nat → List α) (L n : Nat)
    (hL : ∀ k, (f k).length = L) : ((List.range n).flatMap f).length = n * L := by
  induction n with
  | zero => simp
  | succ n ih =>
    rw [List.range_succ, List.flatMap_append, List.length_append, ih]
    simp [hL, Nat.succ_mul]

lemma getD_flatMap_const {α : Type} (f : Nat → List α) (L n i j : Nat) (d : α)
    (hL : ∀ k, (f k).length = L) (hi : i < n) (hj : j < L) :
    ((List.range n).flatMap f).getD (i * L + j) d = (f i).getD j d := by
  induction n with
  | zero => omega
  | succ n ih =>
    rw [List.range_succ, List.flatMap_append]
    by_cases hin : i < n
    · rw [List.getD_append]
      · exact ih hin
      · rw [length_flatMap_const f L n hL]
        have h0 : (i + 1) * L = i * L + L := by ring
        have h1 : (i + 1) * L ≤ n * L := Nat.mul_le_mul_right _ (by omega)
        omega
    · have hieq : i = n := by omega
      subst hieq
      rw [List.getD_append_right]
      · rw [length_flatMap_const f L i hL]
        have hidx : i * L + j - i * L = j := by omega
        rw [hidx]
        simp
      · rw [length_flatMap_const f L i hL]
        omega

lemma blur_channels_getD (img : Image) (x y ch : Nat) (hx : x < img.width)
    (hy : y < img.height) (hch : ch < 3) :
    (blur img).channels.getD ((y * img.width + x) * 3 + ch) 0 = blurVal img x y ch := by
  have hinner : ∀ (yy xx : Nat),
      ((List.range 3).map fun c => blurVal img xx yy c).length = 3 := by
    intro yy xx; simp
  have hmid : ∀ yy : Nat,
      ((List.range img.width).flatMap fun xx =>
        (List.range 3).map fun c => blurVal img xx yy c).length = img.width * 3 := by
    intro yy
    exact length_flatMap_const _ 3 _ (hinner yy)
  have hidx : (y * img.width + x) * 3 + ch = y * (img.width * 3) + (x * 3 + ch) := by ring
  rw [blur]
  simp only
  rw [hidx, getD_flatMap_const _ (img.width * 3) _ y (x * 3 + ch) 0 hmid hy (by omega),
    getD_flatMap_const _ 3 _ x ch 0 (hinner y) hx hch]
  have : ((List.range 3).map fun c => blurVal img x y c).getD ch 0
      = blurVal img x y ch := by
    interval_cases ch <;> rfl
  exact this

/-! ### Expanding the convolution accumulator -/

lemma sum_Icc_expand (f : Int → Nat) :
    ∑ k ∈ Finset.Icc (-2 : Int) 2, f k = f (-2) + f (-1) + f 0 + f 1 + f 2 := by
  have h : Finset.Icc (-2 : Int) 2 = {-2, -1, 0, 1, 2} := by decide
  rw [h, Finset.sum_insert (by decide), Finset.sum_insert (by decide),
    Finset.sum_insert (by decide), Finset.sum_insert (by decide), Finset.sum_singleton]
  ring

lemma acc_expand (img : Image) (x y ch : Nat) :
    acc img x y ch =
      1 * samp img x y (-2) (-2) ch + 2 * samp img x y (-1) (-2) ch + 3 * samp img x y 0 (-2) ch + 2 * samp img x y 1 (-2) ch + 1 * samp img x y 2 (-2) ch
      + (2 * samp img x y (-2) (-1) ch + 4 * samp img x y (-1) (-1) ch + 6 * samp img x y 0 (-1) ch + 4 * samp img x y 1 (-1) ch + 2 * samp img x y 2 (-1) ch)
      + (3 * samp img x y (-2) 0 ch + 6 * samp img x y (-1) 0 ch + 9 * samp img x y 0 0 ch + 6 * samp img x y 1 0 ch + 3 * samp img x y 2 0 ch)
      + (2 * samp img x y (-2) 1 ch + 4 * samp img x y (-1) 1 ch + 6 * samp img x y 0 1 ch + 4 * samp img x y 1 1 ch + 2 * samp img x y 2 1 ch)
      + (1 * samp img x y (-2) 2 ch + 2 * samp img x y (-1) 2 ch + 3 * samp img x y 0 2 ch + 2 * samp img x y 1 2 ch + 1 * samp img x y 2 2 ch) := by
  simp only [acc, kOffsets, List.foldl_cons, List.foldl_nil]
  norm_num [Int.toNat_ofNat,
    show Int.toNat 2 = 2 from rfl, show Int.toNat 3 = 3 from rfl, show Int.toNat 4 = 4 from rfl,
    show K 0 0 = 1 from rfl,
    show K 0 1 = 2 from rfl,
    show K 0 2 = 3 from rfl,
    show K 0 3 = 2 from rfl,
    show K 0 4 = 1 from rfl,
    show K 1 0 = 2 from rfl,
    show K 1 1 = 4 from rfl,
    show K 1 2 = 6 from rfl,
    show K 1 3 = 4 from rfl,
    show K 1 4 = 2 from rfl,
    show K 2 0 = 3 from rfl,
    show K 2 1 = 6 from rfl,
    show K 2 2 = 9 from rfl,
    show K 2 3 = 6 from rfl,
    show K 2 4 = 3 from rfl,
    show K 3 0 = 2 from rfl,
    show K 3 1 = 4 from rfl,
    show K 3 2 = 6 from rfl,
    show K 3 3 = 4 from rfl,
    show K 3 4 = 2 from rfl,
    show K 4 0 = 1 from rfl,
    show K 4 1 = 2 from rfl,
    show K 4 2 = 3 from rfl,
    show K 4 3 = 2 from rfl,
    show K 4 4 = 1 from rfl]
  ring

lemma clamp_nonneg {v hi : Int} (hhi : 0 ≤ hi) : 0 ≤ clamp v 0 hi := by
  unfold clamp; split_ifs <;> omega

lemma clamp_le_hi {v hi : Int} (hhi : 0 ≤ hi) : clamp v 0 hi ≤ hi := by
  unfold clamp; split_ifs <;> omega

lemma clamp_cast_toNat (z m : Nat) : (clamp (z : Int) 0 (m : Int)).toNat = min z m := by
  unfold clamp; split_ifs <;> omega

lemma samp_eq_refSamp (img : Image) (hw : 0 < img.width) (hh : 0 < img.height)
    (x y : Nat) (kx ky : Int) (c : Nat) :
    samp img x y kx ky c = refSamp img x y kx ky c := by
  unfold samp refSamp sampleIdx
  congr 1
  have hsy : 0 ≤ clamp ((y : Int) + ky) 0 ((img.height : Int) - 1) :=
    clamp_nonneg (by omega)
  have hsx : 0 ≤ clamp ((x : Int) + kx) 0 ((img.width : Int) - 1) :=
    clamp_nonneg (by omega)
  obtain ⟨a, ha⟩ : ∃ a : Nat, clamp ((y : Int) + ky) 0 ((img.height : Int) - 1) = (a : Int) :=
    ⟨_, (Int.toNat_of_nonneg hsy).symm⟩
  obtain ⟨b, hb⟩ : ∃ b : Nat, clamp ((x : Int) + kx) 0 ((img.width : Int) - 1) = (b : Int) :=
    ⟨_, (Int.toNat_of_nonneg hsx).symm⟩
  rw [ha, hb]
  have hcast : ((a : Int) * (img.width : Int) + (b : Int)) * 3 + (c : Int)
      = (((a * img.width + b) * 3 + c : Nat) : Int) := by push_cast; ring
  rw [hcast, Int.toNat_natCast]
  have ha' : ((a : Int)).toNat = a := Int.toNat_natCast a
  have hb' : ((b : Int)).toNat = b := Int.toNat_natCast b
  rw [ha', hb']

lemma sampleIdx_lt (img : Image) (hw : 0 < img.width) (hh : 0 < img.height)
    (x y : Nat) (kx ky : Int) (ch : Nat) (hch : ch < 3) :
    sampleIdx img x y kx ky ch < img.width * img.height * 3 := by
  unfold sampleIdx
  have hsy0 : 0 ≤ clamp ((y : Int) + ky) 0 ((img.height : Int) - 1) :=
    clamp_nonneg (by omega)
  have hsy1 : clamp ((y : Int) + ky) 0 ((img.height : Int) - 1) ≤ (img.height : Int) - 1 :=
    clamp_le_hi (by omega)
  have hsx0 : 0 ≤ clamp ((x : Int) + kx) 0 ((img.width : Int) - 1) :=
    clamp_nonneg (by omega)
  have hsx1 : clamp ((x : Int) + kx) 0 ((img.width : Int) - 1) ≤ (img.width : Int) - 1 :=
    clamp_le_hi (by omega)
  obtain ⟨a, ha⟩ : ∃ a : Nat, clamp ((y : Int) + ky) 0 ((img.height : Int) - 1) = (a : Int) :=
    ⟨_, (Int.toNat_of_nonneg hsy0).symm⟩
  obtain ⟨b, hb⟩ : ∃ b : Nat, clamp ((x : Int) + kx) 0 ((img.width : Int) - 1) = (b : Int) :=
    ⟨_, (Int.toNat_of_nonneg hsx0).symm⟩
  rw [ha, hb]
  have hcast : ((a : Int) * (img.width : Int) + (b : Int)) * 3 + (ch : Int)
      = (((a * img.width + b) * 3 + ch : Nat) : Int) := by push_cast; ring
  rw [hcast, Int.toNat_natCast]
  rw [ha] at hsy1
  rw [hb] at hsx1
  have ha1 : a + 1 ≤ img.height := by omega
  have hb1 : b + 1 ≤ img.width := by omega
  have hkey : a * img.width + b + 1 ≤ img.height * img.width := by
    have h1 : (a + 1) * img.width ≤ img.height * img.width :=
      Nat.mul_le_mul_right _ ha1
    have h2 : (a + 1) * img.width = a * img.width + img.width := by ring
    omega
  calc (a * img.width + b) * 3 + ch < (a * img.width + b + 1) * 3 := by omega
    _ ≤ (img.height * img.width) * 3 := Nat.mul_le_mul_right _ hkey
    _ = img.width * img.height * 3 := by ring

lemma pixAt_le {img : Image} (hb : ∀ v ∈ img.channels, v ≤ img.maxval) (idx : Nat) :
    pixAt img idx ≤ img.maxval := by
  unfold pixAt
  by_cases hidx : idx < img.channels.length
  · rw [List.getD_eq_getElem _ _ hidx]
    exact hb _ (List.getElem_mem _)
  · rw [List.getD_eq_default _ _ (by omega)]
    exact Nat.zero_le _

lemma acc_le (img : Image) (hb : ∀ v ∈ img.channels, v ≤ img.maxval) (x y ch : Nat) :
    acc img x y ch ≤ 81 * img.maxval := by
  rw [acc_expand]
  have hs : ∀ kx ky : Int, samp img x y kx ky ch ≤ img.maxval :=
    fun kx ky => pixAt_le hb (sampleIdx img x y kx ky ch)
  have hb0 := hs (-2) (-2)
  have hb1 := hs (-1) (-2)
  have hb2 := hs 0 (-2)
  have hb3 := hs 1 (-2)
  have hb4 := hs 2 (-2)
  have hb5 := hs (-2) (-1)
  have hb6 := hs (-1) (-1)
  have hb7 := hs 0 (-1)
  have hb8 := hs 1 (-1)
  have hb9 := hs 2 (-1)
  have hb10 := hs (-2) 0
  have hb11 := hs (-1) 0
  have hb12 := hs 0 0
  have hb13 := hs 1 0
  have hb14 := hs 2 0
  have hb15 := hs (-2) 1
  have hb16 := hs (-1) 1
  have hb17 := hs 0 1
  have hb18 := hs 1 1
  have hb19 := hs 2 1
  have hb20 := hs (-2) 2
  have hb21 := hs (-1) 2
  have hb22 := hs 0 2
  have hb23 := hs 1 2
  have hb24 := hs 2 2
  omega

/-- C1: for every valid image, every output pixel and channel of the
convolution equals the reference definition from the spec: kernel-weighted
sum over offsets `[-2,2] x [-2,2]` with clamp-to-edge sampling, normalized
as `(accumulator + divisor/2) / divisor` with `divisor = 81`, then clamped
to `[0, max_value]`. -/
theorem C1_convolution_matches_reference (img : Image) (hV : img.Valid)
    (x y c : Nat) (hx : x < img.width) (hy : y < img.height) (hc : c < 3) :
    (blur img).channels.getD ((y * img.width + x) * 3 + c) 0 = refVal img x y c := by
  obtain ⟨hw, hh, -, -, -, -⟩ := hV
  rw [blur_channels_getD img x y c hx hy hc]
  have hacc : acc img x y c
      = ∑ ky ∈ Finset.Icc (-2 : Int) 2, ∑ kx ∈ Finset.Icc (-2 : Int) 2,
          K (ky + 2).toNat (kx + 2).toNat * refSamp img x y kx ky c := by
    rw [acc_expand]
    simp only [sum_Icc_expand, samp_eq_refSamp img hw hh]
    norm_num [Int.toNat_ofNat,
      show Int.toNat 2 = 2 from rfl, show Int.toNat 3 = 3 from rfl,
      show Int.toNat 4 = 4 from rfl,
      show K 0 0 = 1 from rfl,
      show K 0 1 = 2 from rfl,
      show K 0 2 = 3 from rfl,
      show K 0 3 = 2 from rfl,
      show K 0 4 = 1 from rfl,
      show K 1 0 = 2 from rfl,
      show K 1 1 = 4 from rfl,
      show K 1 2 = 6 from rfl,
      show K 1 3 = 4 from rfl,
      show K 1 4 = 2 from rfl,
      show K 2 0 = 3 from rfl,
      show K 2 1 = 6 from rfl,
      show K 2 2 = 9 from rfl,
      show K 2 3 = 6 from rfl,
      show K 2 4 = 3 from rfl,
      show K 3 0 = 2 from rfl,
      show K 3 1 = 4 from rfl,
      show K 3 2 = 6 from rfl,
      show K 3 3 = 4 from rfl,
      show K 3 4 = 2 from rfl,
      show K 4 0 = 1 from rfl,
      show K 4 1 = 2 from rfl,
      show K 4 2 = 3 from rfl,
      show K 4 3 = 2 from rfl,
      show K 4 4 = 1 from rfl]
  unfold blurVal refVal
  rw [hacc, clamp_cast_toNat]
  rfl

lemma blurVal_le_maxval (img : Image) (x y ch : Nat) : blurVal img x y ch ≤ img.maxval := by
  unfold blurVal
  rw [clamp_cast_toNat]
  omega

/-- C2: for a valid input image every channel value of the blurred output
buffer lies in `[0, max_value]`. -/
theorem C2_output_in_range (img : Image) (hV : img.Valid) :
    ∀ v ∈ (blur img).channels, 0 ≤ v ∧ v ≤ img.maxval := by
  intro v hv
  refine ⟨Nat.zero_le _, ?_⟩
  unfold blur at hv
  simp only [List.mem_flatMap, List.mem_map, List.mem_range] at hv
  obtain ⟨y, -, x, -, ch, -, rfl⟩ := hv
  exact blurVal_le_maxval img x y ch

/-- C3: blurring a uniform image returns the identical image. -/
theorem C3_uniform_identity (img : Image) (hV : img.Valid) (V : Nat)
    (hU : ∀ v ∈ img.channels, v = V) (hVm : V ≤ img.maxval) :
    blur img = img := by
  obtain ⟨hw, hh, -, -, hlen, -⟩ := hV
  have hsamp : ∀ (x y : Nat) (ch : Nat), ch < 3 → ∀ kx ky : Int,
      samp img x y kx ky ch = V := by
    intro x y ch hch kx ky
    unfold samp pixAt
    have hidx := sampleIdx_lt img hw hh x y kx ky ch hch
    rw [List.getD_eq_getElem _ _ (by rw [hlen]; exact hidx)]
    exact hU _ (List.getElem_mem _)
  have hbv : ∀ x y ch : Nat, ch < 3 → blurVal img x y ch = V := by
    intro x y ch hch
    unfold blurVal
    rw [clamp_cast_toNat]
    have hacc : acc img x y ch = 81 * V := by
      rw [acc_expand]
      simp only [hsamp x y ch hch]
      ring
    rw [hacc]
    have hdiv : (81 * V + KSUM / 2) / KSUM = V := by
      simp only [KSUM]
      rw [Nat.mul_add_div (by norm_num)]
      norm_num
    rw [hdiv]
    omega
  have hrep : img.channels = List.replicate (img.width * img.height * 3) V :=
    List.eq_replicate_iff.2 ⟨hlen, hU⟩
  unfold blur
  have hch : ((List.range img.height).flatMap fun y =>
      (List.range img.width).flatMap fun x =>
        (List.range 3).map fun ch => blurVal img x y ch) = img.channels := by
    rw [hrep]
    apply List.eq_replicate_iff.2
    constructor
    · rw [length_flatMap_const _ (img.width * 3)]
      · ring
      · intro k
        rw [length_flatMap_const _ 3]
        intro k2
        simp
    · intro b hb
      simp only [List.mem_flatMap, List.mem_map, List.mem_range] at hb
      obtain ⟨y, -, x, -, ch, hch3, rfl⟩ := hb
      exact hbv x y ch hch3
  rw [hch]

/-- Helper for C10: under validity the rounded quotient never exceeds the
max value, so the final clamp changes nothing. -/
lemma blurValNoClamp_eq (img : Image) (hV : img.Valid) (x y ch : Nat) :
    blurValNoClamp img x y ch = blurVal img x y ch := by
  obtain ⟨-, -, -, -, -, hb⟩ := hV
  unfold blurVal blurValNoClamp
  rw [clamp_cast_toNat]
  have hacc := acc_le img hb x y ch
  have hdiv : (acc img x y ch + KSUM / 2) / KSUM ≤ img.maxval := by
    simp only [KSUM]
    have h1 : acc img x y ch + 40 ≤ 81 * img.maxval + 40 := by omega
    calc (acc img x y ch + 81 / 2) / 81 = (acc img x y ch + 40) / 81 := by norm_num
      _ ≤ (81 * img.maxval + 40) / 81 := Nat.div_le_div_right h1
      _ = img.maxval := by rw [Nat.mul_add_div (by norm_num)]; norm_num
  omega

/-- C10: on valid inputs the post-normalization clamp is a no-op - the blur
with the final clamp removed computes the identical output buffer. -/
theorem C10_clamp_is_noop (img : Image) (hV : img.Valid) :
    blurNoClamp img = blur img := by
  unfold blurNoClamp blur
  simp only [blurValNoClamp_eq img hV]

/-! ### Serialization layout -/

lemma serializeVals_eq_zipWith : ∀ (vs : List Nat) (c : Nat),
    serializeVals vs c =
      (List.zipWith (fun k v => natRepr v ++ (if k % 15 = 0 then ['\n'] else [' ']))
        (List.range' (c + 1) vs.length) vs).flatten := by
  intro vs
  induction vs with
  | nil => intro c; simp [serializeVals]
  | cons v tl ih =>
    intro c
    rw [serializeVals]
    have hr : List.range' (c + 1) (v :: tl).length
        = (c + 1) :: List.range' (c + 2) tl.length := by
      rw [List.length_cons, List.range'_succ]
    rw [hr, List.zipWith_cons_cons, List.flatten_cons, ih (c + 1)]

/-- C5 as amended: the serialized bytes are the canonical header followed by
one separator after every token (newline after each 15th, space otherwise)
and the trailing-newline rule. -/
theorem C5_amended_layout (img : Image) : serialize img = serializeAmendedC5 img := by
  unfold serialize serializeAmendedC5
  rw [serializeVals_eq_zipWith]

/-- C5 counterexample: on a 1x1 image the code emits a space after the last
token before the trailing newline, so the byte stream is not the
space-separated layout the claim describes. -/
theorem C5_counterexample :
    serialize ⟨1, 1, 1, [0, 0, 0]⟩ ≠ serializeSpecC5 ⟨1, 1, 1, [0, 0, 0]⟩ := by decide

/-- C9: whenever the pipeline completes, the output image keeps the parsed
input image's width, height and max value; only channel data changes. -/
theorem C9_header_preserved (s : List Char) (out : Image) (bytes : List Char)
    (h : runProgram s = .ok (out, bytes)) :
    ∃ img, parseImage s = .ok img ∧ out.width = img.width ∧
      out.height = img.height ∧ out.maxval = img.maxval := by
  unfold runProgram at h
  cases hp : parseImage s with
  | error e => rw [hp] at h; exact Except.noConfusion h
  | ok img =>
    rw [hp] at h
    simp only [Except.ok.injEq, Prod.mk.injEq] at h
    obtain ⟨h1, -⟩ := h
    refine ⟨img, rfl, ?_, ?_, ?_⟩ <;> rw [← h1] <;> rfl

/-! ### Round-trip: parsing the serialized output -/

lemma intRepr_natCast (n : Nat) : intRepr (n : Int) = natRepr n := by
  rw [intRepr, if_neg (by omega), Int.toNat_natCast]

lemma readInt_ws_natRepr (w : Char) (hw : isSpaceC w = true) (n : Nat) (rest : List Char)
    (hrest : noDigitStart rest = true) :
    readInt (w :: (natRepr n ++ rest)) = .ok (n : Int) rest := by
  have h := readInt_sep_token [SepItem.wsChar w]
    (by intro i hi; simp only [List.mem_singleton] at hi; subst hi; simpa [SepItem.good])
    (n : Int) rest hrest
  rw [intRepr_natCast] at h
  simpa [renderSep, SepItem.render] using h

lemma noDigitStart_cons_ws {c : Char} (hc : isSpaceC c = true) (r : List Char) :
    noDigitStart (c :: r) = true := by
  simp [noDigitStart, isSpaceC_not_digit hc]

lemma readPixels_serializeVals (mv : Int) (tailing : List Char)
    (htail : noDigitStart tailing = true) :
    ∀ (vs : List Nat) (c : Nat) (w : Char), isSpaceC w = true →
      (∀ v ∈ vs, (v : Int) ≤ mv) →
      ∃ left, readPixels mv vs.length (w :: (serializeVals vs c ++ tailing))
        = .ok (vs, left) := by
  intro vs
  induction vs with
  | nil =>
    intro c w hw hb
    exact ⟨w :: (serializeVals [] c ++ tailing), rfl⟩
  | cons v tl ih =>
    intro c w hw hb
    obtain ⟨sc, hsc, hsep⟩ : ∃ sc : Char, isSpaceC sc = true ∧
        (if (c + 1) % 15 = 0 then ['\n'] else [' ']) = [sc] := by
      by_cases h15 : (c + 1) % 15 = 0
      · exact ⟨'\n', by decide, by simp [h15]⟩
      · exact ⟨' ', by decide, by simp [h15]⟩
    have hshape : w :: (serializeVals (v :: tl) c ++ tailing)
        = w :: (natRepr v ++ (sc :: (serializeVals tl (c + 1) ++ tailing))) := by
      rw [serializeVals, hsep]
      simp
    rw [hshape]
    have hrest : noDigitStart (sc :: (serializeVals tl (c + 1) ++ tailing)) = true :=
      noDigitStart_cons_ws hsc _
    have hread := readInt_ws_natRepr w hw v _ hrest
    obtain ⟨left, hrec⟩ := ih (c + 1) sc hsc (fun u hu => hb u (List.mem_cons_of_mem _ hu))
    refine ⟨left, ?_⟩
    have hrange : ¬((v : Int) < 0 ∨ (v : Int) > mv) := by
      have := hb v (List.mem_cons_self _ _)
      omega
    rw [List.length_cons, readPixels]
    rw [hread]
    simp only [hrange, if_false, if_neg hrange]
    rw [hrec]
    simp [Int.toNat_natCast]

lemma wrap64_eq_self {n : Int} (h0 : 0 ≤ n) (h1 : n < 2 ^ 63) : wrap64 n = n := by
  unfold wrap64
  omega

lemma readMagic_P3 (rest : List Char) :
    readMagic ('P' :: '3' :: '\n' :: rest) = some (['P', '3'], '\n' :: rest) := rfl

/-- C4: serializing a valid image and re-parsing the bytes with the same
parser returns exactly that image (width, height, max value and every
channel value). -/
theorem C4_serialize_parse_roundtrip (img : Image) (hV : img.Valid)
    (hsize : img.width * img.height * 3 ≤ 200000000) :
    parseImage (serialize img) = .ok img := by
  obtain ⟨hw, hh, hm1, hm2, hlen, hb⟩ := hV
  have hstream : serialize img
      = 'P' :: '3' :: '\n' :: (natRepr img.width ++ (' ' :: (natRepr img.height
        ++ ('\n' :: (natRepr img.maxval ++ ('\n' :: (serializeVals img.channels 0
          ++ (if img.channels.length % 15 ≠ 0 then ['\n'] else [])))))))) := by
    unfold serialize serializeHeader
    simp
  have htrail : noDigitStart (if img.channels.length % 15 ≠ 0 then ['\n'] else [])
      = true := by
    split <;> decide
  have h3 : readInt ('\n' :: (natRepr img.maxval ++ ('\n' :: (serializeVals img.channels 0
        ++ (if img.channels.length % 15 ≠ 0 then ['\n'] else [])))))
      = .ok (img.maxval : Int) ('\n' :: (serializeVals img.channels 0
        ++ (if img.channels.length % 15 ≠ 0 then ['\n'] else []))) :=
    readInt_ws_natRepr '\n' (by decide) _ _ (noDigitStart_cons_ws (by decide) _)
  have h2 : readInt (' ' :: (natRepr img.height ++ ('\n' :: (natRepr img.maxval
        ++ ('\n' :: (serializeVals img.channels 0
          ++ (if img.channels.length % 15 ≠ 0 then ['\n'] else [])))))))
      = .ok (img.height : Int) ('\n' :: (natRepr img.maxval
        ++ ('\n' :: (serializeVals img.channels 0
          ++ (if img.channels.length % 15 ≠ 0 then ['\n'] else []))))) :=
    readInt_ws_natRepr ' ' (by decide) _ _ (noDigitStart_cons_ws (by decide) _)
  have h1 : readInt ('\n' :: (natRepr img.width ++ (' ' :: (natRepr img.height
        ++ ('\n' :: (natRepr img.maxval ++ ('\n' :: (serializeVals img.channels 0
          ++ (if img.channels.length % 15 ≠ 0 then ['\n'] else [])))))))))
      = .ok (img.width : Int) (' ' :: (natRepr img.height
        ++ ('\n' :: (natRepr img.maxval ++ ('\n' :: (serializeVals img.channels 0
          ++ (if img.channels.length % 15 ≠ 0 then ['\n'] else []))))))) :=
    readInt_ws_natRepr '\n' (by decide) _ _ (noDigitStart_cons_ws (by decide) _)
  have hif1 : ¬((img.width : Int) ≤ 0 ∨ (img.height : Int) ≤ 0) := by omega
  have hif2 : ¬((img.maxval : Int) ≤ 0 ∨ (img.maxval : Int) > 65535) := by omega
  have hpos : 0 < img.width * img.height * 3 := by positivity
  have hw64 : wrap64 ((img.width : Int) * (img.height : Int) * 3)
      = ((img.width * img.height * 3 : Nat) : Int) := by
    have hcast : (img.width : Int) * (img.height : Int) * 3
        = ((img.width * img.height * 3 : Nat) : Int) := by push_cast; ring
    rw [hcast]
    exact wrap64_eq_self (by omega) (by omega)
  have hif3 : ¬(((img.width * img.height * 3 : Nat) : Int) ≤ 0
      ∨ ((img.width * img.height * 3 : Nat) : Int) > 200000000) := by omega
  obtain ⟨left, hrp⟩ := readPixels_serializeVals (img.maxval : Int) _ htrail
    img.channels 0 '\n' (by decide) (fun v hv => by have := hb v hv; omega)
  simp only [ne_eq] at hrp
  have hlen' : img.width * img.height * 3 = img.channels.length := hlen.symm
  rw [hstream]
  unfold parseImage
  rw [readMagic_P3]
  have hif3' : ¬((img.channels.length : Int) ≤ 0 ∨ (img.channels.length : Int) > 200000000) := by
    rw [hlen]; exact hif3
  simp only [ne_eq, not_true_eq_false, if_false, reduceIte, h1, h2, h3, hif1, hif2,
    hw64, hif3, hif3', Int.toNat_natCast, hlen', hrp]

/-- C6 counterexample: this header has width 20000 > 0, height 20000 > 0 and
width*height*3 = 1.2e9 > 200000000, yet the program fails with
InvalidMaxValue (the max-value check precedes the size check), not
ImageTooLarge. -/
theorem C6_counterexample :
    parseImage ("P3\n20000 20000\n70000\n0".toList) = .error .invalidMaxValue ∧
      parseImage ("P3\n20000 20000\n70000\n0".toList) ≠ .error .imageTooLarge := by
  constructor <;> decide

lemma wrap64_high {n : Int} (h0 : 2 ^ 63 ≤ n) (h1 : n < 2 ^ 64) :
    wrap64 n = n - 2 ^ 64 := by
  unfold wrap64
  omega

/-- C6 as amended: every canonical header with positive dimensions
representable in int, a max value in 1..65535, and product
width*height*3 > 200000000 makes the parse fail with ImageTooLarge whatever
bytes follow the header - so no pixel is read and no buffer is built.  The
statement covers the whole int range of width and height: when the long
long product wraps past 2^63 the wrapped value is negative and the
`nvals <= 0` guard still rejects it. -/
theorem C6_size_guard (w h mv : Nat) (hw : 0 < w) (hw31 : w < 2 ^ 31)
    (hh : 0 < h) (hh31 : h < 2 ^ 31) (hmv1 : 1 ≤ mv) (hmv2 : mv ≤ 65535)
    (hbig : 200000000 < w * h * 3) (tail : List Char) :
    parseImage ('P' :: '3' :: '\n' :: (natRepr w ++ (' ' :: (natRepr h
      ++ ('\n' :: (natRepr mv ++ ('\n' :: tail))))))) = .error .imageTooLarge := by
  have h3 : readInt ('\n' :: (natRepr mv ++ ('\n' :: tail)))
      = .ok (mv : Int) ('\n' :: tail) :=
    readInt_ws_natRepr '\n' (by decide) _ _ (noDigitStart_cons_ws (by decide) _)
  have h2 : readInt (' ' :: (natRepr h ++ ('\n' :: (natRepr mv ++ ('\n' :: tail)))))
      = .ok (h : Int) ('\n' :: (natRepr mv ++ ('\n' :: tail))) :=
    readInt_ws_natRepr ' ' (by decide) _ _ (noDigitStart_cons_ws (by decide) _)
  have h1 : readInt ('\n' :: (natRepr w ++ (' ' :: (natRepr h
        ++ ('\n' :: (natRepr mv ++ ('\n' :: tail)))))))
      = .ok (w : Int) (' ' :: (natRepr h ++ ('\n' :: (natRepr mv ++ ('\n' :: tail))))) :=
    readInt_ws_natRepr '\n' (by decide) _ _ (noDigitStart_cons_ws (by decide) _)
  have hif1 : ¬((w : Int) ≤ 0 ∨ (h : Int) ≤ 0) := by omega
  have hif2 : ¬((mv : Int) ≤ 0 ∨ (mv : Int) > 65535) := by omega
  have hbound : w * h * 3 < 2 ^ 64 := by
    have ha : w * h ≤ (2 ^ 31 - 1) * (2 ^ 31 - 1) := Nat.mul_le_mul (by omega) (by omega)
    have hc : (2 ^ 31 - 1) * (2 ^ 31 - 1) * 3 < 2 ^ 64 := by norm_num
    omega
  have hcast : ((w : Int)) * (h : Int) * 3 = ((w * h * 3 : Nat) : Int) := by
    push_cast; ring
  have hguard : wrap64 ((w : Int) * (h : Int) * 3) ≤ 0
      ∨ wrap64 ((w : Int) * (h : Int) * 3) > 200000000 := by
    rw [hcast]
    by_cases hP : ((w * h * 3 : Nat) : Int) < 2 ^ 63
    · right
      rw [wrap64_eq_self (by omega) hP]
      omega
    · left
      have hlt : ((w * h * 3 : Nat) : Int) < 2 ^ 64 := by exact_mod_cast hbound
      rw [wrap64_high (by omega) hlt]
      omega
  unfold parseImage
  rw [readMagic_P3]
  simp only [ne_eq, not_true_eq_false, if_false, reduceIte, h1, h2, h3, hif1, hif2]
  rw [if_pos hguard]

/-! ### Concrete witnesses -/

theorem C1_witness :
    (blur ⟨1, 1, 255, [10, 20, 30]⟩).channels.getD ((0 * 1 + 0) * 3 + 0) 0
      = refVal ⟨1, 1, 255, [10, 20, 30]⟩ 0 0 0 :=
  C1_convolution_matches_reference ⟨1, 1, 255, [10, 20, 30]⟩ (by decide) 0 0 0
    (by decide) (by decide) (by decide)

theorem C2_witness :
    0 ≤ (blur ⟨1, 1, 255, [10, 20, 30]⟩).channels.getD 0 0 ∧
      (blur ⟨1, 1, 255, [10, 20, 30]⟩).channels.getD 0 0 ≤ 255 :=
  C2_output_in_range ⟨1, 1, 255, [10, 20, 30]⟩ (by decide) _ (by decide)

theorem C3_witness :
    blur ⟨2, 1, 255, [7, 7, 7, 7, 7, 7]⟩ = ⟨2, 1, 255, [7, 7, 7, 7, 7, 7]⟩ :=
  C3_uniform_identity ⟨2, 1, 255, [7, 7, 7, 7, 7, 7]⟩ (by decide) 7 (by decide) (by decide)

theorem C4_witness :
    parseImage (serialize ⟨1, 1, 255, [1, 2, 3]⟩) = .ok ⟨1, 1, 255, [1, 2, 3]⟩ :=
  C4_serialize_parse_roundtrip ⟨1, 1, 255, [1, 2, 3]⟩ (by decide) (by decide)

theorem C6_witness :
    parseImage ('P' :: '3' :: '\n' :: (natRepr 20000 ++ (' ' :: (natRepr 20000
      ++ ('\n' :: (natRepr 255 ++ ('\n' :: []))))))) = .error .imageTooLarge :=
  C6_size_guard 20000 20000 255 (by decide) (by decide) (by decide) (by decide)
    (by decide) (by decide) (by decide) []

theorem C7_witness :
    parseOutcome (renderStream [([SepItem.wsChar ' '], 12),
        ([SepItem.comment " note".toList, SepItem.wsChar '\n'], -3)] ('x' :: []))
      = parseOutcome (renderStream ([([SepItem.wsChar ' '], 12),
        ([SepItem.comment " note".toList, SepItem.wsChar '\n'], -3)].map
          fun p => (stripSep p.1, p.2)) ('x' :: [])) :=
  C7_comment_insertion _ _ (by decide) (by decide) (by decide)

theorem C8_witness :
    readPixels 255 3 ("1 2".toList) = .error .unexpectedEndOfData :=
  (C8_pixel_loader 255 3 ("1 2".toList)).2.1 [1, 2] (by decide) (by decide)

theorem C9_witness :
    ∃ img, parseImage ("P3\n1 1\n255\n9 9 9".toList) = .ok img ∧
      (⟨1, 1, 255, [9, 9, 9]⟩ : Image).width = img.width ∧
      (⟨1, 1, 255, [9, 9, 9]⟩ : Image).height = img.height ∧
      (⟨1, 1, 255, [9, 9, 9]⟩ : Image).maxval = img.maxval :=
  C9_header_preserved ("P3\n1 1\n255\n9 9 9".toList) ⟨1, 1, 255, [9, 9, 9]⟩
    (serialize ⟨1, 1, 255, [9, 9, 9]⟩) (by decide)

theorem C10_witness :
    blurNoClamp ⟨1, 1, 255, [10, 20, 30]⟩ = blur ⟨1, 1, 255, [10, 20, 30]⟩ :=
  C10_clamp_is_noop ⟨1, 1, 255, [10, 20, 30]⟩ (by decide)
